import Mathlib

/-!
# Hangman game engine: a shallow embedding

This file embeds the core of `hangman_game/game/engine.py` (state machine,
scoring, statistics aggregation, statistics loading, log writing) as Lean
definitions and proves properties of the embedded code.

Conventions of the embedding:
* The module-global game state of `engine.py` becomes an explicit
  `GameState` record threaded through the transition functions.
* Python strings that are inspected character by character (the target
  word, a whole-word guess) are `List Char`; rendered text stays `String`.
* Python `set` becomes `Finset Char`.
* Python floats (`win_rate`, `average_score`) are modelled as rationals.
* File I/O is factored out: `calculate_score` receives the `game_lost`
  flag it reads from the module state, `update_statistics` receives the
  loaded record and the timestamp, `load_statistics` receives the
  parse outcome of the statistics file, and `save_game_log` is modelled
  by the content string it writes.
-/

/-- From `ascii_art.HANGMAN_STAGES`: seven drawings, stages 0 through 6. -/
def HANGMAN_STAGES_length : Nat := 7

/-- `ascii_art.get_max_wrong_guesses`: `len(HANGMAN_STAGES) - 1`. -/
def get_max_wrong_guesses : Nat := HANGMAN_STAGES_length - 1

/-- The module-global mutable game state of `engine.py` (lines 17-32),
made explicit. -/
structure GameState where
  current_word : List Char
  current_category : String
  guessed_letters : Finset Char
  correct_letters : Finset Char
  wrong_letters : Finset Char
  wrong_guesses : Nat
  game_won : Bool
  game_lost : Bool
  guess_count : Nat
  progress_trace : List String
deriving DecidableEq

/-- `engine.reset_game_state`: all fields cleared. -/
def reset_game_state : GameState :=
  { current_word := []
    current_category := ""
    guessed_letters := ∅
    correct_letters := ∅
    wrong_letters := ∅
    wrong_guesses := 0
    game_won := false
    game_lost := false
    guess_count := 0
    progress_trace := [] }

/-- `engine.get_word_progress`: each character of the word shown if it is in
`correct_letters`, otherwise an underscore; pieces joined by single spaces. -/
def get_word_progress (s : GameState) : String :=
  String.intercalate " "
    (s.current_word.map (fun letter =>
      if letter ∈ s.correct_letters then String.singleton letter else "_"))

/-- `engine.is_word_complete`: `set(current_word) <= correct_letters`. -/
def is_word_complete (s : GameState) : Bool :=
  decide (s.current_word.toFinset ⊆ s.correct_letters)

/-- `engine.process_letter_guess`: lower-cases the letter, short-circuits on a
repeat, otherwise records the guess and branches on membership in the word. -/
def process_letter_guess (letter0 : Char) (s0 : GameState) : String × GameState :=
  let letter := letter0.toLower
  if letter ∈ s0.guessed_letters then
    ("repeated", s0)
  else
    let s1 := { s0 with guessed_letters := insert letter s0.guessed_letters
                        guess_count := s0.guess_count + 1 }
    if letter ∈ s1.current_word then
      let s2 := { s1 with correct_letters := insert letter s1.correct_letters }
      let s3 := { s2 with progress_trace := s2.progress_trace ++ [get_word_progress s2] }
      if is_word_complete s3 then
        ("correct", { s3 with game_won := true })
      else
        ("correct", s3)
    else
      let s2 := { s1 with wrong_letters := insert letter s1.wrong_letters
                          wrong_guesses := s1.wrong_guesses + 1 }
      let s3 := { s2 with progress_trace := s2.progress_trace ++
        [get_word_progress s2 ++ " (" ++ String.singleton letter ++
          " wrong — no progress change)"] }
      if s3.wrong_guesses ≥ get_max_wrong_guesses then
        ("wrong", { s3 with game_lost := true })
      else
        ("wrong", s3)

/-- `engine.process_word_guess`: lower-cases and space-strips the guess,
space-strips the target, counts the guess, and either marks every alphabetic
character of the word as guessed-and-correct (match) or counts one wrong
guess (mismatch). -/
def process_word_guess (guess0 : List Char) (s0 : GameState) : String × GameState :=
  let guess := (guess0.map Char.toLower).filter (fun c => c != ' ')
  let target := s0.current_word.filter (fun c => c != ' ')
  let s1 := { s0 with guess_count := s0.guess_count + 1 }
  if guess = target then
    let s2 := s1.current_word.foldl (fun t letter =>
      if letter.isAlpha then
        { t with correct_letters := insert letter t.correct_letters
                 guessed_letters := insert letter t.guessed_letters }
      else t) s1
    let s3 := { s2 with game_won := true }
    let s4 := { s3 with progress_trace := s3.progress_trace ++ [get_word_progress s3] }
    ("correct", s4)
  else
    let s2 := { s1 with wrong_guesses := s1.wrong_guesses + 1 }
    let s3 := { s2 with progress_trace := s2.progress_trace ++
      [get_word_progress s2 ++ " (word \x27" ++ String.mk guess ++
        "\x27 wrong — no progress change)"] }
    if s3.wrong_guesses ≥ get_max_wrong_guesses then
      ("wrong", { s3 with game_lost := true })
    else
      ("wrong", s3)

/-- `engine.start_new_game`, with the word source's answer passed in:
resets the state, installs the word and category, and appends the initial
(fully masked) progress rendering. -/
def start_new_game (word : List Char) (category : String) : GameState :=
  let s0 := reset_game_state
  let s1 := { s0 with current_word := word, current_category := category }
  { s1 with progress_trace := s1.progress_trace ++ [get_word_progress s1] }

/-- `engine.calculate_score`, with the module-global `game_lost` flag it
reads passed in: 0 when lost, otherwise `max(length*10 - wrong*5, 10)`. -/
def calculate_score (word_length : Nat) (wrong_guess_count : Nat)
    (game_lost : Bool) : Int :=
  if game_lost then
    0
  else
    let base_score : Int := (word_length : Int) * 10
    let penalty : Int := (wrong_guess_count : Int) * 5
    max (base_score - penalty) 10

/-- One accepted player action: a single-letter guess or a whole-word guess
(the two transition functions of the state machine). -/
inductive GuessAction where
  | letter (c : Char)
  | word (w : List Char)
deriving DecidableEq, Repr

/-- Apply one action to the state, discarding the returned result string. -/
def apply_action (s : GameState) (a : GuessAction) : GameState :=
  match a with
  | .letter c => (process_letter_guess c s).2
  | .word w => (process_word_guess w s).2

/-- The state after starting a game on `word` and processing a sequence of
letter guesses (the letter-only reachable states). -/
def run_letters (word : List Char) (letters : List Char) : GameState :=
  letters.foldl (fun s l => (process_letter_guess l s).2)
    (start_new_game word "mixed")

/-- The state after starting a game on `word` and processing any sequence of
letter and whole-word guesses. -/
def run_game_actions (word : List Char) (actions : List GuessAction) : GameState :=
  actions.foldl apply_action (start_new_game word "mixed")

/-- The persisted statistics record of `engine.py` (keys of `default_stats`
in `load_statistics`), with Python floats modelled as rationals. -/
structure Statistics where
  games_played : Nat
  wins : Nat
  losses : Nat
  total_score : Int
  win_rate : ℚ
  average_score : ℚ
  last_played : Option String
deriving DecidableEq

/-- `engine.update_statistics`, with the loaded record and the timestamp it
reads from the clock passed in: bumps the counters, adds the score, and
recomputes the two derived rates. -/
def update_statistics (won : Bool) (score : Int) (timestamp : String)
    (stats0 : Statistics) : Statistics :=
  let stats1 := { stats0 with games_played := stats0.games_played + 1 }
  let stats2 :=
    if won then { stats1 with wins := stats1.wins + 1 }
    else { stats1 with losses := stats1.losses + 1 }
  let stats3 := { stats2 with total_score := stats2.total_score + score }
  { stats3 with
    win_rate := ((stats3.wins : ℚ) / (stats3.games_played : ℚ)) * 100
    average_score := (stats3.total_score : ℚ) / (stats3.games_played : ℚ)
    last_played := some timestamp }

/-- Record a whole sequence of game outcomes `(won, score, timestamp)`,
one `update_statistics` call per game. -/
def record_all (stats : Statistics) (outcomes : List (Bool × Int × String)) :
    Statistics :=
  outcomes.foldl (fun st o => update_statistics o.1 o.2.1 o.2.2 st) stats

/-- A JSON scalar as it appears in the statistics file: the value types used
by `default_stats` in `engine.load_statistics` (ints, floats, null). -/
inductive JValue where
  | jint (n : Int)
  | jfloat (q : ℚ)
  | jstr (s : String)
  | jnull
deriving DecidableEq

/-- A parsed JSON object, as an insertion-ordered key/value list (the shape
`json.load` hands to `load_statistics`). -/
abbrev JObject : Type := List (String × JValue)

/-- Python `d[key]` / `key in d` on a `JObject`: first binding wins. -/
def jlookup (d : JObject) (key : String) : Option JValue :=
  (d.find? (fun p => p.1 == key)).map (fun p => p.2)

/-- The `default_stats` dictionary of `engine.load_statistics`. -/
def default_stats : JObject :=
  [("games_played", .jint 0),
   ("wins", .jint 0),
   ("losses", .jint 0),
   ("total_score", .jint 0),
   ("win_rate", .jfloat 0),
   ("average_score", .jfloat 0),
   ("last_played", .jnull)]

/-- The key-backfill loop of `engine.load_statistics`: for each default key
missing from the loaded record, assign the default (dict assignment of a new
key appends it). -/
def backfill_defaults (loaded : JObject) : JObject :=
  default_stats.foldl
    (fun acc p => if (jlookup acc p.1).isSome then acc else acc ++ [p]) loaded

/-- `engine.load_statistics`, with the outcome of reading the file passed in:
`none` = file absent; `some none` = open/parse raised (`JSONDecodeError` /
`IOError`), caught with a warning; `some (some loaded)` = parsed record. -/
def load_statistics (file_contents : Option (Option JObject)) : JObject :=
  match file_contents with
  | none => default_stats
  | some none => default_stats
  | some (some loaded) => backfill_defaults loaded

/-- The content string written by `engine.save_game_log` (line 230):
`'\\n'.join(log_entries)` — in the Python source the separator is the
escaped two-character sequence backslash `n`, not a newline. -/
def save_game_log_content (log_entries : List String) : String :=
  String.intercalate "\\n" log_entries

/-! ## Basic facts about the transition functions -/

@[simp] lemma start_new_game_current_word (w : List Char) (c : String) :
    (start_new_game w c).current_word = w := rfl

@[simp] lemma start_new_game_guessed (w : List Char) (c : String) :
    (start_new_game w c).guessed_letters = ∅ := rfl

@[simp] lemma start_new_game_correct (w : List Char) (c : String) :
    (start_new_game w c).correct_letters = ∅ := rfl

@[simp] lemma start_new_game_wrong (w : List Char) (c : String) :
    (start_new_game w c).wrong_letters = ∅ := rfl

@[simp] lemma start_new_game_wrong_guesses (w : List Char) (c : String) :
    (start_new_game w c).wrong_guesses = 0 := rfl

@[simp] lemma start_new_game_game_won (w : List Char) (c : String) :
    (start_new_game w c).game_won = false := rfl

@[simp] lemma start_new_game_game_lost (w : List Char) (c : String) :
    (start_new_game w c).game_lost = false := rfl

@[simp] lemma start_new_game_guess_count (w : List Char) (c : String) :
    (start_new_game w c).guess_count = 0 := rfl

/-- A repeated letter is a complete no-op apart from the result string. -/
lemma process_letter_guess_repeated (l : Char) (s : GameState)
    (h : l.toLower ∈ s.guessed_letters) :
    process_letter_guess l s = ("repeated", s) := by
  simp [process_letter_guess, h]

/-- Characterization of a fresh wrong-letter guess. -/
lemma process_letter_guess_wrong (l : Char) (s : GameState)
    (hg : l.toLower ∉ s.guessed_letters) (hw : l.toLower ∉ s.current_word) :
    (process_letter_guess l s).1 = "wrong" ∧
    (process_letter_guess l s).2.current_word = s.current_word ∧
    (process_letter_guess l s).2.guessed_letters = insert l.toLower s.guessed_letters ∧
    (process_letter_guess l s).2.correct_letters = s.correct_letters ∧
    (process_letter_guess l s).2.wrong_letters = insert l.toLower s.wrong_letters ∧
    (process_letter_guess l s).2.wrong_guesses = s.wrong_guesses + 1 ∧
    (process_letter_guess l s).2.game_won = s.game_won ∧
    (process_letter_guess l s).2.game_lost =
      (if get_max_wrong_guesses ≤ s.wrong_guesses + 1 then true else s.game_lost) ∧
    (process_letter_guess l s).2.guess_count = s.guess_count + 1 := by
  simp only [process_letter_guess, if_neg hg, if_neg hw]
  split <;> simp_all

/-- Characterization of a fresh correct-letter guess. -/
lemma process_letter_guess_correct (l : Char) (s : GameState)
    (hg : l.toLower ∉ s.guessed_letters) (hw : l.toLower ∈ s.current_word) :
    (process_letter_guess l s).1 = "correct" ∧
    (process_letter_guess l s).2.current_word = s.current_word ∧
    (process_letter_guess l s).2.guessed_letters = insert l.toLower s.guessed_letters ∧
    (process_letter_guess l s).2.correct_letters = insert l.toLower s.correct_letters ∧
    (process_letter_guess l s).2.wrong_letters = s.wrong_letters ∧
    (process_letter_guess l s).2.wrong_guesses = s.wrong_guesses ∧
    (process_letter_guess l s).2.game_won =
      (s.game_won ||
        decide (s.current_word.toFinset ⊆ insert l.toLower s.correct_letters)) ∧
    (process_letter_guess l s).2.game_lost = s.game_lost ∧
    (process_letter_guess l s).2.guess_count = s.guess_count + 1 := by
  simp only [process_letter_guess, if_neg hg, if_pos hw, is_word_complete]
  split <;> rename_i hcomp <;> simp_all

/-- The letter-marking loop inside a matching whole-word guess: it adds
exactly the alphabetic characters of the scanned list to both
`correct_letters` and `guessed_letters`, and touches nothing else. -/
lemma mark_word_foldl (w : List Char) (s : GameState) :
    (w.foldl (fun t letter =>
      if letter.isAlpha then
        { t with correct_letters := insert letter t.correct_letters
                 guessed_letters := insert letter t.guessed_letters }
      else t) s).current_word = s.current_word ∧
    (w.foldl (fun t letter =>
      if letter.isAlpha then
        { t with correct_letters := insert letter t.correct_letters
                 guessed_letters := insert letter t.guessed_letters }
      else t) s).correct_letters
      = s.correct_letters ∪ (w.filter (fun c => c.isAlpha)).toFinset ∧
    (w.foldl (fun t letter =>
      if letter.isAlpha then
        { t with correct_letters := insert letter t.correct_letters
                 guessed_letters := insert letter t.guessed_letters }
      else t) s).guessed_letters
      = s.guessed_letters ∪ (w.filter (fun c => c.isAlpha)).toFinset ∧
    (w.foldl (fun t letter =>
      if letter.isAlpha then
        { t with correct_letters := insert letter t.correct_letters
                 guessed_letters := insert letter t.guessed_letters }
      else t) s).wrong_letters = s.wrong_letters ∧
    (w.foldl (fun t letter =>
      if letter.isAlpha then
        { t with correct_letters := insert letter t.correct_letters
                 guessed_letters := insert letter t.guessed_letters }
      else t) s).wrong_guesses = s.wrong_guesses ∧
    (w.foldl (fun t letter =>
      if letter.isAlpha then
        { t with correct_letters := insert letter t.correct_letters
                 guessed_letters := insert letter t.guessed_letters }
      else t) s).guess_count = s.guess_count ∧
    (w.foldl (fun t letter =>
      if letter.isAlpha then
        { t with correct_letters := insert letter t.correct_letters
                 guessed_letters := insert letter t.guessed_letters }
      else t) s).game_lost = s.game_lost := by
  induction w generalizing s with
  | nil => simp
  | cons c cs ih =>
    by_cases hc : c.isAlpha
    · have h := ih { s with
        correct_letters := insert c s.correct_letters
        guessed_letters := insert c s.guessed_letters }
      simp only [List.foldl_cons, if_pos hc, List.filter_cons_of_pos hc] at h ⊢
      refine ⟨h.1, ?_, ?_, h.2.2.2⟩
      · rw [h.2.1]
        ext x
        simp only [Finset.mem_union, Finset.mem_insert, List.toFinset_cons,
          List.mem_toFinset, List.mem_filter]
        tauto
      · rw [h.2.2.1]
        ext x
        simp only [Finset.mem_union, Finset.mem_insert, List.toFinset_cons,
          List.mem_toFinset, List.mem_filter]
        tauto
    · have h := ih s
      simp only [List.foldl_cons, if_neg hc,
        List.filter_cons_of_neg (by simpa using hc)] at h ⊢
      exact h

/-- Characterization of a matching whole-word guess. -/
lemma process_word_guess_match (g : List Char) (s : GameState)
    (h : (g.map Char.toLower).filter (fun c => c != ' ')
        = s.current_word.filter (fun c => c != ' ')) :
    (process_word_guess g s).1 = "correct" ∧
    (process_word_guess g s).2.current_word = s.current_word ∧
    (process_word_guess g s).2.guessed_letters
      = s.guessed_letters ∪ (s.current_word.filter (fun c => c.isAlpha)).toFinset ∧
    (process_word_guess g s).2.correct_letters
      = s.correct_letters ∪ (s.current_word.filter (fun c => c.isAlpha)).toFinset ∧
    (process_word_guess g s).2.wrong_letters = s.wrong_letters ∧
    (process_word_guess g s).2.wrong_guesses = s.wrong_guesses ∧
    (process_word_guess g s).2.game_won = true ∧
    (process_word_guess g s).2.game_lost = s.game_lost ∧
    (process_word_guess g s).2.guess_count = s.guess_count + 1 := by
  obtain ⟨h1, h2, h3, h4, h5, h6, h7⟩ :=
    mark_word_foldl s.current_word { s with guess_count := s.guess_count + 1 }
  simp only [process_word_guess, if_pos h]
  refine ⟨by trivial, h1, h3, h2, h4, h5, by trivial, h7, h6⟩

/-- Characterization of a mismatching whole-word guess. -/
lemma process_word_guess_mismatch (g : List Char) (s : GameState)
    (h : (g.map Char.toLower).filter (fun c => c != ' ')
        ≠ s.current_word.filter (fun c => c != ' ')) :
    (process_word_guess g s).1 = "wrong" ∧
    (process_word_guess g s).2.current_word = s.current_word ∧
    (process_word_guess g s).2.guessed_letters = s.guessed_letters ∧
    (process_word_guess g s).2.correct_letters = s.correct_letters ∧
    (process_word_guess g s).2.wrong_letters = s.wrong_letters ∧
    (process_word_guess g s).2.wrong_guesses = s.wrong_guesses + 1 ∧
    (process_word_guess g s).2.game_won = s.game_won ∧
    (process_word_guess g s).2.game_lost =
      (if get_max_wrong_guesses ≤ s.wrong_guesses + 1 then true else s.game_lost) ∧
    (process_word_guess g s).2.guess_count = s.guess_count + 1 := by
  simp only [process_word_guess, if_neg h]
  split <;> simp_all

/-- The target word is never modified by a letter guess. -/
lemma process_letter_guess_word_eq (l : Char) (s : GameState) :
    (process_letter_guess l s).2.current_word = s.current_word := by
  by_cases hg : l.toLower ∈ s.guessed_letters
  · rw [process_letter_guess_repeated l s hg]
  · by_cases hw : l.toLower ∈ s.current_word
    · exact (process_letter_guess_correct l s hg hw).2.1
    · exact (process_letter_guess_wrong l s hg hw).2.1

/-- The target word is never modified by any accepted action. -/
lemma apply_action_word_eq (s : GameState) (a : GuessAction) :
    (apply_action s a).current_word = s.current_word := by
  cases a with
  | letter c => exact process_letter_guess_word_eq c s
  | word g =>
    by_cases h : (g.map Char.toLower).filter (fun c => c != ' ')
        = s.current_word.filter (fun c => c != ' ')
    · exact (process_word_guess_match g s h).2.1
    · exact (process_word_guess_mismatch g s h).2.1

/-- One letter guess preserves the equivalence between the `game_won` flag
and full coverage of the target word by `correct_letters`. -/
lemma process_letter_guess_won_iff (l : Char) (s : GameState)
    (h : s.game_won = true ↔ s.current_word.toFinset ⊆ s.correct_letters) :
    (process_letter_guess l s).2.game_won = true ↔
      (process_letter_guess l s).2.current_word.toFinset ⊆
        (process_letter_guess l s).2.correct_letters := by
  by_cases hg : l.toLower ∈ s.guessed_letters
  · rw [process_letter_guess_repeated l s hg]; exact h
  · by_cases hw : l.toLower ∈ s.current_word
    · obtain ⟨-, h1, -, h2, -, -, h3, -, -⟩ := process_letter_guess_correct l s hg hw
      rw [h1, h2, h3]
      constructor
      · intro hor
        rcases Bool.or_eq_true_iff.mp hor with hwon | hdec
        · exact (h.mp hwon).trans (Finset.subset_insert _ _)
        · exact of_decide_eq_true hdec
      · intro hsub
        exact Bool.or_eq_true_iff.mpr (Or.inr (decide_eq_true hsub))
    · obtain ⟨-, h1, -, h2, -, -, h3, -, -⟩ := process_letter_guess_wrong l s hg hw
      rw [h1, h2, h3]; exact h

/-- Running any sequence of letter guesses preserves the win-flag/coverage
equivalence. -/
lemma foldl_letters_won_iff (ls : List Char) (s : GameState)
    (h : s.game_won = true ↔ s.current_word.toFinset ⊆ s.correct_letters) :
    (ls.foldl (fun a l => (process_letter_guess l a).2) s).game_won = true ↔
      (ls.foldl (fun a l => (process_letter_guess l a).2) s).current_word.toFinset ⊆
        (ls.foldl (fun a l => (process_letter_guess l a).2) s).correct_letters := by
  induction ls generalizing s with
  | nil => exact h
  | cons l ls ih => exact ih _ (process_letter_guess_won_iff l s h)

/-- The target word is preserved through any sequence of letter guesses. -/
lemma foldl_letters_word_eq (ls : List Char) (s : GameState) :
    (ls.foldl (fun a l => (process_letter_guess l a).2) s).current_word
      = s.current_word := by
  induction ls generalizing s with
  | nil => rfl
  | cons l ls ih => rw [List.foldl_cons, ih, process_letter_guess_word_eq]

/-- Running a list of fresh wrong letters from any state whose lost flag
agrees with the wrong-guess threshold: every guess takes the wrong branch,
so the counters advance by the list length and nothing else changes. -/
lemma foldl_wrong_letters (ls : List Char) (s : GameState)
    (hw : ∀ l ∈ ls, l.toLower ∉ s.current_word)
    (hg : ∀ l ∈ ls, l.toLower ∉ s.guessed_letters)
    (hnd : (ls.map Char.toLower).Nodup)
    (hl : s.game_lost = decide (get_max_wrong_guesses ≤ s.wrong_guesses)) :
    (ls.foldl (fun a l => (process_letter_guess l a).2) s).wrong_guesses
        = s.wrong_guesses + ls.length ∧
    (ls.foldl (fun a l => (process_letter_guess l a).2) s).game_lost
        = decide (get_max_wrong_guesses ≤ s.wrong_guesses + ls.length) ∧
    (ls.foldl (fun a l => (process_letter_guess l a).2) s).game_won = s.game_won := by
  induction ls generalizing s with
  | nil => simpa using hl
  | cons l ls ih =>
    have hgl : l.toLower ∉ s.guessed_letters := hg l (by simp)
    have hwl : l.toLower ∉ s.current_word := hw l (by simp)
    obtain ⟨-, e_word, e_guessed, -, -, e_wrong, e_won, e_lost, -⟩ :=
      process_letter_guess_wrong l s hgl hwl
    simp only [List.map_cons, List.nodup_cons] at hnd
    have step := ih (process_letter_guess l s).2
      (fun x hx => by rw [e_word]; exact hw x (List.mem_cons_of_mem _ hx))
      (fun x hx => by
        rw [e_guessed]
        simp only [Finset.mem_insert, not_or]
        exact ⟨fun hc => hnd.1 (hc ▸ List.mem_map_of_mem Char.toLower hx),
          hg x (List.mem_cons_of_mem _ hx)⟩)
      hnd.2
      (by
        rw [e_lost, e_wrong]
        by_cases hth : get_max_wrong_guesses ≤ s.wrong_guesses + 1
        · simp [hth]
        · have : ¬ get_max_wrong_guesses ≤ s.wrong_guesses := by omega
          simp [hth, hl, this])
    rw [List.foldl_cons]
    refine ⟨?_, ?_, by rw [step.2.2, e_won]⟩
    · rw [step.1, e_wrong]; simp [Nat.add_comm, Nat.add_assoc, Nat.add_left_comm]
    · have harith : s.wrong_guesses + 1 + ls.length
          = s.wrong_guesses + (ls.length + 1) := by omega
      rw [step.2.1, e_wrong, List.length_cons, harith]

/-- The three-set bookkeeping invariant, strengthened with the two facts
that make it inductive: correct letters occur in the word, wrong letters do
not. -/
def LetterSetsInv (s : GameState) : Prop :=
  s.correct_letters ∪ s.wrong_letters = s.guessed_letters ∧
  (∀ c ∈ s.correct_letters, c ∈ s.current_word) ∧
  (∀ c ∈ s.wrong_letters, c ∉ s.current_word)

/-- Every accepted action preserves the three-set invariant. -/
lemma apply_action_preserves_inv (s : GameState) (a : GuessAction)
    (h : LetterSetsInv s) : LetterSetsInv (apply_action s a) := by
  obtain ⟨hu, hc, hw⟩ := h
  cases a with
  | letter l =>
    show LetterSetsInv (process_letter_guess l s).2
    by_cases hg : l.toLower ∈ s.guessed_letters
    · rw [process_letter_guess_repeated l s hg]; exact ⟨hu, hc, hw⟩
    · by_cases hm : l.toLower ∈ s.current_word
      · obtain ⟨-, e1, e2, e3, e4, -, -, -, -⟩ := process_letter_guess_correct l s hg hm
        refine ⟨?_, ?_, ?_⟩
        · rw [e2, e3, e4, ← hu, Finset.insert_union]
        · rw [e1, e3]
          intro c hcm
          rcases Finset.mem_insert.mp hcm with rfl | hcm
          · exact hm
          · exact hc c hcm
        · rw [e1, e4]; exact hw
      · obtain ⟨-, e1, e2, e3, e4, -, -, -, -⟩ := process_letter_guess_wrong l s hg hm
        refine ⟨?_, ?_, ?_⟩
        · rw [e2, e3, e4, ← hu, Finset.union_insert]
        · rw [e1, e3]; exact hc
        · rw [e1, e4]
          intro c hcm
          rcases Finset.mem_insert.mp hcm with rfl | hcm
          · exact hm
          · exact hw c hcm
  | word g =>
    show LetterSetsInv (process_word_guess g s).2
    by_cases hm : (g.map Char.toLower).filter (fun c => c != ' ')
        = s.current_word.filter (fun c => c != ' ')
    · obtain ⟨-, e1, e2, e3, e4, -, -, -, -⟩ := process_word_guess_match g s hm
      refine ⟨?_, ?_, ?_⟩
      · rw [e2, e3, e4, ← hu, Finset.union_right_comm]
      · rw [e1, e3]
        intro c hcm
        rcases Finset.mem_union.mp hcm with hcm | hcm
        · exact hc c hcm
        · exact List.mem_of_mem_filter (List.mem_toFinset.mp hcm)
      · rw [e1, e4]; exact hw
    · obtain ⟨-, e1, e2, e3, e4, -, -, -, -⟩ := process_word_guess_mismatch g s hm
      exact ⟨by rw [e2, e3, e4, hu], by rw [e1, e3]; exact hc, by rw [e1, e4]; exact hw⟩

/-- Folding the action list preserves the three-set invariant. -/
lemma foldl_actions_preserves_inv (as : List GuessAction) (s : GameState)
    (h : LetterSetsInv s) : LetterSetsInv (as.foldl apply_action s) := by
  induction as generalizing s with
  | nil => exact h
  | cons a as ih => exact ih _ (apply_action_preserves_inv s a h)

/-- Integer-field effect of one `update_statistics` call. -/
lemma update_statistics_fields (won : Bool) (score : Int) (ts : String)
    (stats : Statistics) :
    (update_statistics won score ts stats).games_played = stats.games_played + 1 ∧
    (update_statistics won score ts stats).wins
      = stats.wins + (if won then 1 else 0) ∧
    (update_statistics won score ts stats).losses
      = stats.losses + (if won then 0 else 1) ∧
    (update_statistics won score ts stats).total_score
      = stats.total_score + score := by
  cases won <;> simp [update_statistics]

/-- Closed form of the integer aggregates after recording a whole list of
outcomes. -/
lemma record_all_closed (outcomes : List (Bool × Int × String))
    (stats : Statistics) :
    (record_all stats outcomes).games_played
      = stats.games_played + outcomes.length ∧
    (record_all stats outcomes).wins
      = stats.wins + outcomes.countP (fun o => o.1) ∧
    (record_all stats outcomes).losses
      = stats.losses + outcomes.countP (fun o => !o.1) ∧
    (record_all stats outcomes).total_score
      = stats.total_score + (outcomes.map (fun o => o.2.1)).sum := by
  induction outcomes generalizing stats with
  | nil => simp [record_all]
  | cons o os ih =>
    obtain ⟨u1, u2, u3, u4⟩ := update_statistics_fields o.1 o.2.1 o.2.2 stats
    have step := ih (update_statistics o.1 o.2.1 o.2.2 stats)
    have e : record_all stats (o :: os)
        = record_all (update_statistics o.1 o.2.1 o.2.2 stats) os := rfl
    rw [e]
    refine ⟨?_, ?_, ?_, ?_⟩
    · rw [step.1, u1, List.length_cons]; omega
    · rw [step.2.1, u2, List.countP_cons]
      cases ho : o.1 <;> (simp [ho]; try omega)
    · rw [step.2.2.1, u3, List.countP_cons]
      cases ho : o.1 <;> (simp [ho]; try omega)
    · rw [step.2.2.2, u4, List.map_cons, List.sum_cons]; ring

/-- `jlookup` over a concatenation: the left record wins. -/
lemma jlookup_append (d e : JObject) (k : String) :
    jlookup (d ++ e) k = (jlookup d k).or (jlookup e k) := by
  cases hfd : d.find? (fun p => p.1 == k) <;>
    simp [jlookup, List.find?_append, hfd]

/-- `jlookup` in a one-entry record. -/
lemma jlookup_singleton (k0 : String) (v0 : JValue) (k : String) :
    jlookup [(k0, v0)] k = if k0 == k then some v0 else none := by
  simp only [jlookup, List.find?]
  split <;> simp_all

/-- The backfill loop never disturbs a key that is already present. -/
lemma foldl_backfill_keeps (defs : JObject) (d : JObject) (k : String)
    (v : JValue) (h : jlookup d k = some v) :
    jlookup (defs.foldl
      (fun acc p => if (jlookup acc p.1).isSome then acc else acc ++ [p]) d) k
      = some v := by
  induction defs generalizing d with
  | nil => exact h
  | cons p ps ih =>
    rw [List.foldl_cons]
    by_cases hp : (jlookup d p.1).isSome
    · rw [if_pos hp]; exact ih d h
    · rw [if_neg hp]
      exact ih _ (by rw [jlookup_append, h]; rfl)

/-- The backfill loop installs the default for a key that is absent,
provided the default keys are distinct. -/
lemma foldl_backfill_fills (defs : JObject)
    (hnd : (defs.map Prod.fst).Nodup) (d : JObject) (k : String) (dv : JValue)
    (hmem : (k, dv) ∈ defs) (hnone : jlookup d k = none) :
    jlookup (defs.foldl
      (fun acc p => if (jlookup acc p.1).isSome then acc else acc ++ [p]) d) k
      = some dv := by
  induction defs generalizing d with
  | nil => cases hmem
  | cons p ps ih =>
    simp only [List.map_cons, List.nodup_cons] at hnd
    rw [List.foldl_cons]
    rcases List.mem_cons.mp hmem with heq | htail
    · have hk : p.1 = k := by rw [← heq]
      have hdv : p.2 = dv := by rw [← heq]
      have hp : ¬ (jlookup d p.1).isSome := by rw [hk, hnone]; simp
      rw [if_neg hp]
      refine foldl_backfill_keeps ps _ k dv ?_
      rw [jlookup_append, hnone]
      have : jlookup [p] k = some dv := by
        rw [show p = (p.1, p.2) from rfl, jlookup_singleton, if_pos]
        · rw [hdv]
        · simp [hk]
      simpa using this
    · have hkne : p.1 ≠ k := by
        intro hc
        exact hnd.1 (hc ▸ (List.mem_map.mpr ⟨(k, dv), htail, rfl⟩))
      by_cases hp : (jlookup d p.1).isSome
      · rw [if_pos hp]; exact ih hnd.2 d htail hnone
      · rw [if_neg hp]
        refine ih hnd.2 _ htail ?_
        rw [jlookup_append, hnone]
        rw [show p = (p.1, p.2) from rfl, jlookup_singleton, if_neg (by simp [hkne])]
        rfl

/-- The inner loop of `String.intercalate` introduces no character that is
absent from the accumulator, the separator and the remaining pieces. -/
lemma intercalate_go_not_mem (c : Char) (sep : String) (as : List String)
    (acc : String) (hacc : c ∉ acc.data) (hsep : c ∉ sep.data)
    (has : ∀ e ∈ as, c ∉ e.data) :
    c ∉ (String.intercalate.go acc sep as).data := by
  induction as generalizing acc with
  | nil => simpa [String.intercalate.go] using hacc
  | cons a as ih =>
    rw [String.intercalate.go]
    refine ih (acc ++ sep ++ a) ?_ (fun e he => has e (List.mem_cons_of_mem _ he))
    simp only [String.data_append, List.mem_append]
    push_neg
    exact ⟨⟨hacc, hsep⟩, has a (List.mem_cons_self _ _)⟩

/-- `String.intercalate` introduces no character absent from the separator
and pieces. -/
lemma intercalate_not_mem (c : Char) (sep : String) (ss : List String)
    (hsep : c ∉ sep.data) (hss : ∀ e ∈ ss, c ∉ e.data) :
    c ∉ (String.intercalate sep ss).data := by
  cases ss with
  | nil => simp [String.intercalate]
  | cons a as =>
    rw [String.intercalate]
    exact intercalate_go_not_mem c sep as a (hss a (List.mem_cons_self _ _)) hsep
      (fun e he => hss e (List.mem_cons_of_mem _ he))

/-! ## Claim theorems -/

/-- C1 counterexample: on the target `"a b"` (a target with a non-alphabetic
character, as the spec itself contemplates for multi-word targets), guessing
`a` then `b` covers every alphabetic character of the target with
`correctLetters`, yet `won` is still false, because `is_word_complete`
demands that every character — the space included — be in
`correct_letters`. -/
theorem C1_counterexample_space_in_target :
    (∀ c ∈ (['a', ' ', 'b'] : List Char), c.isAlpha →
      c ∈ (run_letters ['a', ' ', 'b'] ['a', 'b']).correct_letters) ∧
    (run_letters ['a', ' ', 'b'] ['a', 'b']).game_won = false := by
  decide

/-- C1 (amended): in every state reachable by starting a game on a nonempty
word and processing any sequence of letter guesses, `won` is true iff every
character of the target word — not only the alphabetic ones — is in
`correctLetters`; for all-alphabetic targets this coincides with the
original claim, and a correct guess completing the coverage sets `won`. -/
theorem C1_won_iff_word_fully_covered (w : List Char) (ls : List Char)
    (hne : w ≠ []) :
    (run_letters w ls).game_won = true ↔
      ∀ c ∈ w, c ∈ (run_letters w ls).correct_letters := by
  have hbase : (start_new_game w "mixed").game_won = true ↔
      (start_new_game w "mixed").current_word.toFinset ⊆
        (start_new_game w "mixed").correct_letters := by
    simp only [start_new_game_game_won, start_new_game_current_word,
      start_new_game_correct, Finset.subset_empty]
    constructor
    · intro h; cases h
    · intro h
      exact absurd ((List.toFinset_eq_empty_iff w).mp h) hne
  have h := foldl_letters_won_iff ls _ hbase
  rw [show (run_letters w ls)
      = ls.foldl (fun a l => (process_letter_guess l a).2) (start_new_game w "mixed")
    from rfl]
  rw [h, foldl_letters_word_eq, start_new_game_current_word, Finset.subset_iff]
  constructor
  · intro hsub c hc
    exact hsub (List.mem_toFinset.mpr hc)
  · intro hall c hc
    exact hall c (List.mem_toFinset.mp hc)

/-- Witness for C1 (amended) at the all-alphabetic target `"dog"`. -/
theorem C1_witness :
    (run_letters ['d', 'o', 'g'] ['d', 'o', 'g']).game_won = true ↔
      ∀ c ∈ (['d', 'o', 'g'] : List Char),
        c ∈ (run_letters ['d', 'o', 'g'] ['d', 'o', 'g']).correct_letters :=
  C1_won_iff_word_fully_covered ['d', 'o', 'g'] ['d', 'o', 'g'] (by decide)

/-- C2: `calculate_score` reads the `game_lost` flag; at the end of a game
exactly one of `game_won`/`game_lost` is set, so with `lost = !won` the
function returns 0 when the game was not won and
`max(wordLength*10 - wrongGuessCount*5, 10)` when it was; in particular the
spec's four sample values hold. -/
theorem C2_calculate_score_spec (L W : Nat) (won lost : Bool)
    (h : lost = !won) :
    calculate_score L W lost
      = (if won then max ((L : Int) * 10 - (W : Int) * 5) 10 else 0) ∧
    calculate_score 5 0 false = 50 ∧
    calculate_score 5 3 false = 35 ∧
    calculate_score 5 10 false = 10 ∧
    (∀ W2 : Nat, calculate_score 5 W2 true = 0) := by
  subst h
  refine ⟨?_, by decide, by decide, by decide, fun W2 => rfl⟩
  cases won <;> simp [calculate_score]

/-- Witness for C2 at `L = 5`, `W = 3`, a won game. -/
theorem C2_witness :
    calculate_score 5 3 false
      = (if true then max ((5 : Int) * 10 - (3 : Int) * 5) 10 else 0) :=
  (C2_calculate_score_spec 5 3 true false (by decide)).1

/-- C3: a whole-word guess that, after case-folding and space-stripping both
sides, equals the target returns `"correct"`, sets `won`, and puts every
alphabetic character of the target into both `guessed_letters` and
`correct_letters`, with no assumption that any letter was guessed before.
(The in-progress target is lowercase — words are lower-cased on load — which
is the `hlow` hypothesis.) -/
theorem C3_matching_word_guess (g : List Char) (s : GameState)
    (hlow : s.current_word.map Char.toLower = s.current_word)
    (hmatch : (g.map Char.toLower).filter (fun c => c != ' ')
      = (s.current_word.map Char.toLower).filter (fun c => c != ' ')) :
    (process_word_guess g s).1 = "correct" ∧
    (process_word_guess g s).2.game_won = true ∧
    (∀ c ∈ s.current_word, c.isAlpha →
      c ∈ (process_word_guess g s).2.guessed_letters ∧
      c ∈ (process_word_guess g s).2.correct_letters) := by
  rw [hlow] at hmatch
  obtain ⟨r, -, eg, ec, -, -, ew, -, -⟩ := process_word_guess_match g s hmatch
  refine ⟨r, ew, fun c hcw hca => ⟨?_, ?_⟩⟩
  · rw [eg]
    exact Finset.mem_union_right _
      (List.mem_toFinset.mpr (List.mem_filter.mpr ⟨hcw, hca⟩))
  · rw [ec]
    exact Finset.mem_union_right _
      (List.mem_toFinset.mpr (List.mem_filter.mpr ⟨hcw, hca⟩))

/-- Witness for C3: guessing `"dog"` against the fresh target `"dog"`. -/
theorem C3_witness :
    (process_word_guess ['d', 'o', 'g'] (start_new_game ['d', 'o', 'g'] "animals")).1
        = "correct" ∧
    (process_word_guess ['d', 'o', 'g']
        (start_new_game ['d', 'o', 'g'] "animals")).2.game_won = true ∧
    (∀ c ∈ (start_new_game ['d', 'o', 'g'] "animals").current_word, c.isAlpha →
      c ∈ (process_word_guess ['d', 'o', 'g']
            (start_new_game ['d', 'o', 'g'] "animals")).2.guessed_letters ∧
      c ∈ (process_word_guess ['d', 'o', 'g']
            (start_new_game ['d', 'o', 'g'] "animals")).2.correct_letters) :=
  C3_matching_word_guess ['d', 'o', 'g'] (start_new_game ['d', 'o', 'g'] "animals")
    (by decide) (by decide)

/-- C4: in an in-progress game (`lost` not yet set, wrong-guess budget not
exhausted), a mismatching whole-word guess adds exactly 1 to
`wrong_guesses` and 1 to `guess_count`, leaves all three letter sets
untouched, and sets `lost` exactly when the resulting count reaches 6. -/
theorem C4_wrong_word_guess (g : List Char) (s : GameState)
    (hlow : s.current_word.map Char.toLower = s.current_word)
    (hmismatch : (g.map Char.toLower).filter (fun c => c != ' ')
      ≠ (s.current_word.map Char.toLower).filter (fun c => c != ' '))
    (hlost : s.game_lost = false)
    (hbudget : s.wrong_guesses < get_max_wrong_guesses) :
    (process_word_guess g s).2.wrong_guesses = s.wrong_guesses + 1 ∧
    (process_word_guess g s).2.guess_count = s.guess_count + 1 ∧
    (process_word_guess g s).2.guessed_letters = s.guessed_letters ∧
    (process_word_guess g s).2.correct_letters = s.correct_letters ∧
    (process_word_guess g s).2.wrong_letters = s.wrong_letters ∧
    ((process_word_guess g s).2.game_lost = true ↔
      (process_word_guess g s).2.wrong_guesses = 6) := by
  rw [hlow] at hmismatch
  obtain ⟨-, -, e1, e2, e3, e4, -, e5, e6⟩ := process_word_guess_mismatch g s hmismatch
  have hmax : get_max_wrong_guesses = 6 := rfl
  rw [hmax] at hbudget
  refine ⟨e4, e6, e1, e2, e3, ?_⟩
  rw [e5, e4, hmax]
  by_cases h6 : 6 ≤ s.wrong_guesses + 1
  · rw [if_pos h6]
    constructor
    · intro; omega
    · intro; rfl
  · rw [if_neg h6, hlost]
    constructor
    · intro h; cases h
    · intro h; omega

/-- Witness for C4: guessing `"cat"` against the fresh target `"dog"`. -/
theorem C4_witness :
    (process_word_guess ['c', 'a', 't']
        (start_new_game ['d', 'o', 'g'] "m")).2.wrong_guesses
      = (start_new_game ['d', 'o', 'g'] "m").wrong_guesses + 1 ∧
    (process_word_guess ['c', 'a', 't']
        (start_new_game ['d', 'o', 'g'] "m")).2.guess_count
      = (start_new_game ['d', 'o', 'g'] "m").guess_count + 1 ∧
    (process_word_guess ['c', 'a', 't']
        (start_new_game ['d', 'o', 'g'] "m")).2.guessed_letters
      = (start_new_game ['d', 'o', 'g'] "m").guessed_letters ∧
    (process_word_guess ['c', 'a', 't']
        (start_new_game ['d', 'o', 'g'] "m")).2.correct_letters
      = (start_new_game ['d', 'o', 'g'] "m").correct_letters ∧
    (process_word_guess ['c', 'a', 't']
        (start_new_game ['d', 'o', 'g'] "m")).2.wrong_letters
      = (start_new_game ['d', 'o', 'g'] "m").wrong_letters ∧
    ((process_word_guess ['c', 'a', 't']
        (start_new_game ['d', 'o', 'g'] "m")).2.game_lost = true ↔
      (process_word_guess ['c', 'a', 't']
        (start_new_game ['d', 'o', 'g'] "m")).2.wrong_guesses = 6) :=
  C4_wrong_word_guess ['c', 'a', 't'] (start_new_game ['d', 'o', 'g'] "m")
    (by decide) (by decide) (by decide) (by decide)

/-- C5: from a fresh game, any 6 pairwise-distinct letters none of which
occurs in the target drive `wrong_guesses` to exactly 6 and set `lost`
after the 6th guess and never before, whatever the order of the letters. -/
theorem C5_six_distinct_wrong_letters (w : List Char) (ls : List Char)
    (hlen : ls.length = 6)
    (hnd : (ls.map Char.toLower).Nodup)
    (hw : ∀ l ∈ ls, l.toLower ∉ w) :
    (run_letters w ls).game_lost = true ∧
    (run_letters w ls).wrong_guesses = 6 ∧
    (∀ k < 6, (run_letters w (ls.take k)).game_lost = false) := by
  have hmax : get_max_wrong_guesses = 6 := rfl
  have base := foldl_wrong_letters ls (start_new_game w "mixed")
    (by simpa using hw) (by simp) hnd (by simp [hmax])
  rw [show (run_letters w ls)
      = ls.foldl (fun a l => (process_letter_guess l a).2) (start_new_game w "mixed")
    from rfl]
  refine ⟨?_, ?_, ?_⟩
  · rw [base.2.1]
    simp [hmax, hlen]
  · rw [base.1]
    simp [hlen]
  · intro k hk
    have hsub : ls.take k ⊆ ls := List.take_subset k ls
    have hndk : ((ls.take k).map Char.toLower).Nodup := by
      rw [List.map_take]
      exact hnd.sublist (List.take_sublist _ _)
    have basek := foldl_wrong_letters (ls.take k) (start_new_game w "mixed")
      (by
        intro l hl
        simpa using hw l (hsub hl))
      (by simp) hndk (by simp [hmax])
    rw [show (run_letters w (ls.take k))
        = (ls.take k).foldl (fun a l => (process_letter_guess l a).2)
            (start_new_game w "mixed")
      from rfl]
    rw [basek.2.1]
    simp only [start_new_game_wrong_guesses, List.length_take, hlen, hmax,
      Nat.zero_add]
    have : ¬ (6 ≤ min k 6) := by omega
    simp [this]

/-- Witness for C5: six distinct wrong letters against `"dog"`. -/
theorem C5_witness :
    (run_letters ['d', 'o', 'g'] ['x', 'y', 'z', 'w', 'q', 'u']).game_lost = true ∧
    (run_letters ['d', 'o', 'g'] ['x', 'y', 'z', 'w', 'q', 'u']).wrong_guesses = 6 ∧
    (∀ k < 6, (run_letters ['d', 'o', 'g']
      (['x', 'y', 'z', 'w', 'q', 'u'].take k)).game_lost = false) :=
  C5_six_distinct_wrong_letters ['d', 'o', 'g'] ['x', 'y', 'z', 'w', 'q', 'u']
    (by decide) (by decide) (by decide)

/-- C6: guessing a letter already in `guessed_letters` (after case-folding)
returns `"repeated"` and returns the state entirely unchanged — every
counter, every letter set, both flags and the progress trace. -/
theorem C6_repeated_guess_is_noop (l : Char) (s : GameState)
    (h : l.toLower ∈ s.guessed_letters) :
    process_letter_guess l s = ("repeated", s) :=
  process_letter_guess_repeated l s h

/-- Witness for C6: re-guessing `A` after `a` on the target `"cat"`. -/
theorem C6_witness :
    process_letter_guess 'A'
        (process_letter_guess 'a' (start_new_game ['c', 'a', 't'] "m")).2
      = ("repeated", (process_letter_guess 'a' (start_new_game ['c', 'a', 't'] "m")).2) :=
  C6_repeated_guess_is_noop 'A'
    (process_letter_guess 'a' (start_new_game ['c', 'a', 't'] "m")).2 (by decide)

/-- C7: in every state reachable from a fresh game by any sequence of letter
and whole-word guesses, `correct_letters ∪ wrong_letters = guessed_letters`
and `correct_letters ∩ wrong_letters = ∅`. -/
theorem C7_letter_sets_partition (w : List Char) (actions : List GuessAction) :
    (run_game_actions w actions).correct_letters ∪
        (run_game_actions w actions).wrong_letters
      = (run_game_actions w actions).guessed_letters ∧
    (run_game_actions w actions).correct_letters ∩
        (run_game_actions w actions).wrong_letters = ∅ := by
  have hstart : LetterSetsInv (start_new_game w "mixed") := by
    refine ⟨by simp, ?_, ?_⟩
    · intro c hc
      simp only [start_new_game_correct] at hc
      exact absurd hc (Finset.not_mem_empty c)
    · intro c hc
      simp only [start_new_game_wrong] at hc
      exact absurd hc (Finset.not_mem_empty c)
  obtain ⟨hu, hc, hw⟩ := foldl_actions_preserves_inv actions _ hstart
  refine ⟨hu, ?_⟩
  rw [Finset.eq_empty_iff_forall_not_mem]
  intro c hcmem
  rw [Finset.mem_inter] at hcmem
  exact hw c hcmem.2 (hc c hcmem.1)

/-- C8: one `update_statistics` call bumps `games_played` by 1, exactly one
of `wins`/`losses` by 1 according to `won`, and adds the score to
`total_score`; consequently recording any permutation of a list of outcomes
produces identical final values of those four aggregates. -/
theorem C8_record_outcome_aggregates :
    (∀ (stats : Statistics) (won : Bool) (score : Int) (ts : String),
      (update_statistics won score ts stats).games_played
          = stats.games_played + 1 ∧
      (update_statistics won score ts stats).wins
          = stats.wins + (if won then 1 else 0) ∧
      (update_statistics won score ts stats).losses
          = stats.losses + (if won then 0 else 1) ∧
      (update_statistics won score ts stats).total_score
          = stats.total_score + score) ∧
    (∀ (stats : Statistics) (l1 l2 : List (Bool × Int × String)), l1.Perm l2 →
      (record_all stats l1).games_played = (record_all stats l2).games_played ∧
      (record_all stats l1).wins = (record_all stats l2).wins ∧
      (record_all stats l1).losses = (record_all stats l2).losses ∧
      (record_all stats l1).total_score = (record_all stats l2).total_score) := by
  refine ⟨fun stats won score ts => update_statistics_fields won score ts stats,
    fun stats l1 l2 hp => ?_⟩
  obtain ⟨a1, a2, a3, a4⟩ := record_all_closed l1 stats
  obtain ⟨b1, b2, b3, b4⟩ := record_all_closed l2 stats
  refine ⟨?_, ?_, ?_, ?_⟩
  · rw [a1, b1, hp.length_eq]
  · rw [a2, b2, hp.countP_eq]
  · rw [a3, b3, hp.countP_eq]
  · rw [a4, b4, (hp.map (fun o => o.2.1)).sum_eq]

/-- Witness for C8: one win and one loss recorded in the two possible
orders give identical aggregates. -/
theorem C8_witness :
    (record_all ⟨0, 0, 0, 0, 0, 0, none⟩
        [(true, 10, "t1"), (false, 0, "t2")]).games_played
      = (record_all ⟨0, 0, 0, 0, 0, 0, none⟩
          [(false, 0, "t2"), (true, 10, "t1")]).games_played ∧
    (record_all ⟨0, 0, 0, 0, 0, 0, none⟩
        [(true, 10, "t1"), (false, 0, "t2")]).wins
      = (record_all ⟨0, 0, 0, 0, 0, 0, none⟩
          [(false, 0, "t2"), (true, 10, "t1")]).wins ∧
    (record_all ⟨0, 0, 0, 0, 0, 0, none⟩
        [(true, 10, "t1"), (false, 0, "t2")]).losses
      = (record_all ⟨0, 0, 0, 0, 0, 0, none⟩
          [(false, 0, "t2"), (true, 10, "t1")]).losses ∧
    (record_all ⟨0, 0, 0, 0, 0, 0, none⟩
        [(true, 10, "t1"), (false, 0, "t2")]).total_score
      = (record_all ⟨0, 0, 0, 0, 0, 0, none⟩
          [(false, 0, "t2"), (true, 10, "t1")]).total_score :=
  C8_record_outcome_aggregates.2 ⟨0, 0, 0, 0, 0, 0, none⟩
    [(true, 10, "t1"), (false, 0, "t2")] [(false, 0, "t2"), (true, 10, "t1")]
    (by decide)

/-- C9: `load_statistics` returns the all-zero defaults when the file is
absent or unparsable (both exception paths are caught), and on a parsed
record it keeps every present field unchanged and backfills every missing
default key with its default value. -/
theorem C9_load_statistics_backfill :
    load_statistics none = default_stats ∧
    load_statistics (some none) = default_stats ∧
    (∀ (loaded : JObject) (k : String) (v : JValue),
      jlookup loaded k = some v →
      jlookup (load_statistics (some (some loaded))) k = some v) ∧
    (∀ (loaded : JObject) (k : String) (dv : JValue),
      (k, dv) ∈ default_stats →
      jlookup loaded k = none →
      jlookup (load_statistics (some (some loaded))) k = some dv) := by
  refine ⟨rfl, rfl, ?_, ?_⟩
  · intro loaded k v h
    exact foldl_backfill_keeps default_stats loaded k v h
  · intro loaded k dv hmem hnone
    exact foldl_backfill_fills default_stats (by decide) loaded k dv hmem hnone

/-- Witness for C9: a record holding only `wins = 3` keeps that value and
gets `games_played` backfilled to 0. -/
theorem C9_witness :
    jlookup (load_statistics (some (some [("wins", JValue.jint 3)]))) "wins"
        = some (JValue.jint 3) ∧
    jlookup (load_statistics (some (some [("wins", JValue.jint 3)]))) "games_played"
        = some (JValue.jint 0) :=
  ⟨C9_load_statistics_backfill.2.2.1 [("wins", JValue.jint 3)] "wins"
      (JValue.jint 3) (by decide),
    C9_load_statistics_backfill.2.2.2 [("wins", JValue.jint 3)] "games_played"
      (JValue.jint 0) (by decide) (by decide)⟩

/-- C10: the transcript is the log entries joined by the literal
two-character sequence backslash-`n` (the Python source writes the escaped
`'\\n'`), not by a newline: the separator's characters are backslash and
`n`, a transcript built from newline-free entries contains no newline at
all (one physical line), and the joined content differs from the
newline-joined one. -/
theorem C10_log_joined_by_escaped_backslash_n :
    (save_game_log_content ["Game 1 Log", "Result: Win"]).data
        = "Game 1 Log".data ++ ['\x5c', 'n'] ++ "Result: Win".data ∧
    (∀ entries : List String, (∀ e ∈ entries, '\n' ∉ e.data) →
      '\n' ∉ (save_game_log_content entries).data) ∧
    save_game_log_content ["Game 1 Log", "Result: Win"]
      ≠ String.intercalate "\n" ["Game 1 Log", "Result: Win"] := by
  refine ⟨by decide, ?_, by decide⟩
  intro entries hentries
  exact intercalate_not_mem '\n' "\\n" entries (by decide) hentries

/-- Witness for C10: a two-entry transcript contains no newline. -/
theorem C10_witness :
    '\n' ∉ (save_game_log_content ["Game 1 Log", "Result: Win"]).data :=
  C10_log_joined_by_escaped_backslash_n.2.1 ["Game 1 Log", "Result: Win"]
    (by decide)
